import Mathlib

/-!
# Verification of the docsrv release index and request router

Shallow embedding of the `src-d/docsrv` Go sources (final revisions:
`docsrv/index.go`, `docsrv/build.go`, the `docsrv`-package `Service` and
`githubFetcher`).  Go maps are modelled as functions `String → Option α`
(a read of an absent key yields Go's zero value, which we make explicit at
each use site); `time.Time` is modelled as a `Nat` count of nanoseconds;
slices are lists.  Every definition mirrors the corresponding Go function;
comments cite the file and function they come from.
-/

namespace Docsrv

/-- `release` from `docsrv/github.go` / `index.go`: a tag plus tarball URL. -/
structure Release where
  tag : String
  url : String
deriving DecidableEq

/-- `latestVersion` from `docsrv/index.go`: a version name with the time it
was inserted in the cache.  `cachedAt` is in nanoseconds (Go `time.Time`). -/
structure LatestVersion where
  cachedAt : Nat
  version : String
deriving DecidableEq

/-- `latestVersionLifetime = 1 * time.Hour` from `docsrv/index.go`,
in nanoseconds. -/
def latestVersionLifetime : Nat := 3600000000000

/-- `(v latestVersion) isExpired` from `docsrv/index.go`:
`v.cachedAt.Add(latestVersionLifetime).After(time.Now())`.
Despite its name, the source predicate returns `true` while the entry is
still fresh (`cachedAt + lifetime > now`); we preserve the source semantics
and name. -/
def LatestVersion.isExpired (v : LatestVersion) (now : Nat) : Bool :=
  now < v.cachedAt + latestVersionLifetime

/-- `strings.Join(strs, "/")`, used by `newKey` in `docsrv/index.go`. -/
def joinSlash : List String → String
  | [] => ""
  | [s] => s
  | s :: rest => s ++ "/" ++ joinSlash rest

/-- `newKey` from `docsrv/index.go`: joins the key components with `"/"`. -/
def newKey (strs : List String) : String := joinSlash strs

/-- Pointwise update of a function-backed map, modelling `m[k] = v` on a Go
map. -/
def updMap {α : Type} (m : String → Option α) (k : String) (v : α) :
    String → Option α :=
  fun k' => if k' = k then some v else m k'

/-- `projectIndex` from `docsrv/index.go`.  The four Go maps become four
function-backed maps; `installed` (`map[string]struct{}`) becomes a
membership function. -/
structure ProjectIndex where
  releases : String → Option Release
  projects : String → Option (List Release)
  latestVersions : String → Option LatestVersion
  installed : String → Bool

/-- `newProjectIndex` from `docsrv/index.go`: all maps empty. -/
def newProjectIndex : ProjectIndex where
  releases := fun _ => none
  projects := fun _ => none
  latestVersions := fun _ => none
  installed := fun _ => false

/-- `projectIndex.set` from `docsrv/index.go`: stores `releases` as the
project's list under `newKey(owner, project)` and then, for each release,
stores it under `newKey(owner, project, r.tag)` in the by-tag map.  Note the
by-tag map is only written to, never cleared. -/
def ProjectIndex.set (st : ProjectIndex) (owner project : String)
    (releases : List Release) : ProjectIndex :=
  { st with
    projects := updMap st.projects (newKey [owner, project]) releases
    releases := releases.foldl
      (fun m r => updMap m (newKey [owner, project, r.tag]) r) st.releases }

/-- `projectIndex.get` from `docsrv/index.go`: `p.releases[newKey(owner,
project, version)]`; a missing entry is Go's `nil`, here `none`. -/
def ProjectIndex.get (st : ProjectIndex) (owner project version : String) :
    Option Release :=
  st.releases (newKey [owner, project, version])

/-- `projectIndex.forProject` from `docsrv/index.go`:
`p.projects[newKey(owner, project)]`; a missing entry is Go's `nil` slice,
observationally the empty list. -/
def ProjectIndex.forProject (st : ProjectIndex) (owner project : String) :
    List Release :=
  (st.projects (newKey [owner, project])).getD []

/-- `projectIndex.isIndexed` from `docsrv/index.go`: key presence in
`p.projects`. -/
def ProjectIndex.isIndexed (st : ProjectIndex) (owner project : String) :
    Bool :=
  (st.projects (newKey [owner, project])).isSome

/-- `projectIndex.setLatestVersion` from `docsrv/index.go`:
`p.latestVersions[key] = latestVersion{time.Now(), version}`; `now` is the
current time passed explicitly. -/
def ProjectIndex.setLatestVersion (st : ProjectIndex) (now : Nat)
    (owner project version : String) : ProjectIndex :=
  { st with
    latestVersions := updMap st.latestVersions (newKey [owner, project])
      ⟨now, version⟩ }

/-- `projectIndex.latestVersion` from `docsrv/index.go`: reads
`p.latestVersions[key]` (zero value `latestVersion{}` when absent, i.e.
`cachedAt = 0`, `version = ""`) and returns `(v.version, true)` when
`v.isExpired()` holds (which, per the source, means *fresh*), else
`("", false)`. -/
def ProjectIndex.latestVersion (st : ProjectIndex) (now : Nat)
    (owner project : String) : String × Bool :=
  let v := (st.latestVersions (newKey [owner, project])).getD ⟨0, ""⟩
  if v.isExpired now then (v.version, true) else ("", false)

/-- `projectIndex.isInstalled` from `docsrv/index.go`: membership of
`newKey(owner, project, version)` in the `installed` set. -/
def ProjectIndex.isInstalled (st : ProjectIndex)
    (owner project version : String) : Bool :=
  st.installed (newKey [owner, project, version])

/-- `projectIndex.install` from `docsrv/index.go`: adds
`newKey(owner, project, version)` to the `installed` set. -/
def ProjectIndex.install (st : ProjectIndex)
    (owner project version : String) : ProjectIndex :=
  { st with
    installed := fun k =>
      if k = newKey [owner, project, version] then true else st.installed k }

end Docsrv

namespace Docsrv

/-! ## Claim C1: `set` then `set` — `forProject` reflects only the second
list. -/

/-- The two successive writes to `p.projects` hit the same key, so the second
`getD` read sees exactly the second value. -/
theorem forProject_set_set (st : ProjectIndex) (owner project : String)
    (r1 r2 : List Release) :
    ((st.set owner project r1).set owner project r2).forProject owner project
      = r2 := by
  simp [ProjectIndex.set, ProjectIndex.forProject, updMap]

end Docsrv

namespace Docsrv

/-! ## Claim C2: the by-tag index is *not* replaced by `set`. -/

/-- Helper: cancel a common left factor of a string append. -/
theorem String.append_left_cancel {s a b : String} (h : s ++ a = s ++ b) :
    a = b := by
  have hd : s.data ++ a.data = s.data ++ b.data := by
    have := congrArg String.data h
    simpa using this
  have hab : a.data = b.data := List.append_cancel_left hd
  cases a; cases b; exact congrArg String.mk hab

/-- Reading a key after the by-tag fold of `projectIndex.set`: the result is
the last release of the list whose key matches, or the previous map value. -/
theorem lookup_set_fold (owner project : String) (rs : List Release)
    (m : String → Option Release) (k : String) :
    (rs.foldl (fun m r => updMap m (newKey [owner, project, r.tag]) r) m) k
      = match rs.reverse.find?
            (fun r => newKey [owner, project, r.tag] == k) with
        | some r => some r
        | none => m k := by
  induction rs generalizing m with
  | nil => simp
  | cons r rest ih =>
    simp only [List.foldl_cons, List.reverse_cons, List.find?_append]
    rw [ih]
    cases hfind : rest.reverse.find?
        (fun r => newKey [owner, project, r.tag] == k) with
    | some r' => simp [Option.orElse]
    | none =>
      simp only [Option.orElse, Option.none_orElse]
      by_cases hk : newKey [owner, project, r.tag] = k
      · subst hk
        simp [List.find?, updMap]
      · have hpk : (newKey [owner, project, r.tag] == k) = false :=
          beq_false_of_ne hk
        simp [List.find?, hpk, updMap, Ne.symm hk]

/-- Claim C2 as stated is false at a concrete input: after
`set(o, p, [v1.0.0])` followed by `set(o, p, [])`, the by-tag lookup of
`v1.0.0` still returns the stale release instead of absent. -/
theorem get_after_replacing_set_not_absent :
    ¬ (((newProjectIndex.set "o" "p" [⟨"v1.0.0", "u1"⟩]).set "o" "p"
        []).get "o" "p" "v1.0.0" = none) := by
  decide

/-- Amended claim C2: `set` replaces the release list wholesale but only
augments the by-tag index.  For a tag occurring in the first list but in no
release of the second, `get` still returns the (stale) result of the first
`set` — in particular it is present, not absent. -/
theorem get_after_set_set_stale (st : ProjectIndex) (owner project t : String)
    (r1 r2 : List Release) (hmem : ∃ r ∈ r1, r.tag = t)
    (hnot : ∀ r ∈ r2, r.tag ≠ t) :
    ((st.set owner project r1).set owner project r2).get owner project t
        = (st.set owner project r1).get owner project t ∧
      (((st.set owner project r1).get owner project t).isSome = true) := by
  have hkey : ∀ r : Release, r ∈ r2 →
      (newKey [owner, project, r.tag] == newKey [owner, project, t])
        = false := by
    intro r hr
    apply beq_false_of_ne
    intro h
    apply hnot r hr
    have h1 : owner ++ "/" ++ (project ++ "/" ++ r.tag)
        = owner ++ "/" ++ (project ++ "/" ++ t) := by
      simpa [newKey, joinSlash] using h
    have h2 := String.append_left_cancel h1
    exact String.append_left_cancel h2
  constructor
  · simp only [ProjectIndex.get, ProjectIndex.set]
    rw [lookup_set_fold]
    have : r2.reverse.find?
        (fun r => newKey [owner, project, r.tag]
          == newKey [owner, project, t]) = none := by
      rw [List.find?_eq_none]
      intro r hr
      simp [hkey r (List.mem_reverse.mp hr)]
    simp [this]
  · simp only [ProjectIndex.get, ProjectIndex.set]
    rw [lookup_set_fold]
    obtain ⟨r, hr, hrt⟩ := hmem
    have : (r1.reverse.find?
        (fun r => newKey [owner, project, r.tag]
          == newKey [owner, project, t])).isSome = true := by
      rw [List.find?_isSome]
      exact ⟨r, List.mem_reverse.mpr hr, by simp [hrt]⟩
    cases hfind : r1.reverse.find?
        (fun r => newKey [owner, project, r.tag]
          == newKey [owner, project, t]) with
    | some r' => simp
    | none => rw [hfind] at this; simp at this

/-- Witness for `get_after_set_set_stale` at a concrete input. -/
theorem get_after_set_set_stale_witness :
    ((newProjectIndex.set "o" "p" [⟨"v1.0.0", "u1"⟩]).set "o" "p"
        [⟨"v2.0.0", "u2"⟩]).get "o" "p" "v1.0.0"
      = (newProjectIndex.set "o" "p" [⟨"v1.0.0", "u1"⟩]).get "o" "p"
        "v1.0.0" ∧
    (((newProjectIndex.set "o" "p" [⟨"v1.0.0", "u1"⟩]).get "o" "p"
        "v1.0.0").isSome = true) :=
  get_after_set_set_stale newProjectIndex "o" "p" "v1.0.0"
    [⟨"v1.0.0", "u1"⟩] [⟨"v2.0.0", "u2"⟩]
    ⟨⟨"v1.0.0", "u1"⟩, by decide, rfl⟩ (by decide)

/-! ## Claim C10: `"/"`-joined composite keys alias across distinct
project identifiers. -/

/-- `newKey("a", "b/c")` and `newKey("a/b", "c")` are the same string, so the
install tracker, release store and latest-version cache all alias the two
distinct project keys. -/
theorem newKey_aliasing :
    (("a", "b/c") ≠ (("a/b", "c") : String × String)) ∧
    (newProjectIndex.install "a" "b/c" "v1.0.0").isInstalled "a/b" "c"
        "v1.0.0" = true ∧
    (newProjectIndex.set "a" "b/c" [⟨"v1.0.0", "u"⟩]).forProject "a/b" "c"
        = [⟨"v1.0.0", "u"⟩] ∧
    (newProjectIndex.setLatestVersion 0 "a" "b/c"
        "v1.0.0").latestVersion 1 "a/b" "c" = ("v1.0.0", true) := by
  refine ⟨by decide, by decide, by decide, by decide⟩

end Docsrv

namespace Docsrv

/-! ## Claim C4: freshness semantics of the latest-version cache. -/

/-- Claim C4: with `now` at least one lifetime past Go's zero time (true of
any real clock; Go's `time.Time` zero value is year 1), `latestVersion`
returns `(tag, true)` iff a map entry exists with
`now < cachedAt + lifetime` and that entry's version is `tag`; an entry one
lifetime old or older yields `("", false)`, exactly like an absent entry. -/
theorem latestVersion_fresh_iff (st : ProjectIndex) (now : Nat)
    (owner project tag : String) (hnow : latestVersionLifetime ≤ now) :
    (st.latestVersion now owner project = (tag, true) ↔
      ∃ e, st.latestVersions (newKey [owner, project]) = some e ∧
        now < e.cachedAt + latestVersionLifetime ∧ e.version = tag) ∧
    (∀ e, st.latestVersions (newKey [owner, project]) = some e →
      e.cachedAt + latestVersionLifetime ≤ now →
      st.latestVersion now owner project = ("", false)) ∧
    (st.latestVersions (newKey [owner, project]) = none →
      st.latestVersion now owner project = ("", false)) := by
  refine ⟨?_, ?_, ?_⟩
  · cases hl : st.latestVersions (newKey [owner, project]) with
    | none =>
      simp only [ProjectIndex.latestVersion, hl, Option.getD,
        LatestVersion.isExpired]
      constructor
      · intro h
        rw [if_neg (by simp; omega)] at h
        exact absurd (congrArg Prod.snd h) (by simp)
      · rintro ⟨e, he, _⟩
        simp [he] at hl
        exact absurd (hl ▸ he) (by simp [hl])
    | some e =>
      simp only [ProjectIndex.latestVersion, hl, Option.getD,
        LatestVersion.isExpired]
      by_cases hf : now < e.cachedAt + latestVersionLifetime
      · rw [if_pos (by simpa using hf)]
        constructor
        · intro h
          exact ⟨e, rfl, hf, congrArg Prod.fst h⟩
        · rintro ⟨e', he', _, hv⟩
          cases he'
          simp [hv]
      · rw [if_neg (by simpa using hf)]
        constructor
        · intro h
          exact absurd (congrArg Prod.snd h) (by simp)
        · rintro ⟨e', he', hfr, _⟩
          cases he'
          exact absurd hfr hf
  · intro e he hold
    simp [ProjectIndex.latestVersion, he, LatestVersion.isExpired]
    omega
  · intro he
    simp [ProjectIndex.latestVersion, he, LatestVersion.isExpired]
    omega

/-- Witness for `latestVersion_fresh_iff`: a concrete fresh cache entry. -/
theorem latestVersion_fresh_iff_witness :
    latestVersionLifetime ≤ latestVersionLifetime + 1 ∧
    (((newProjectIndex.setLatestVersion latestVersionLifetime "o"
        "p" "v1.0.0").latestVersion (latestVersionLifetime + 1) "o" "p"
          = ("v1.0.0", true)) ↔
      ∃ e, (newProjectIndex.setLatestVersion latestVersionLifetime "o"
          "p" "v1.0.0").latestVersions (newKey ["o", "p"]) = some e ∧
        latestVersionLifetime + 1 < e.cachedAt + latestVersionLifetime ∧
        e.version = "v1.0.0") :=
  ⟨Nat.le_succ _,
    ((latestVersion_fresh_iff
      (newProjectIndex.setLatestVersion latestVersionLifetime "o" "p"
        "v1.0.0")
      (latestVersionLifetime + 1) "o" "p" "v1.0.0" (Nat.le_succ _)).1)⟩

end Docsrv

namespace Docsrv

/-! ## `Masterminds/semver` v1 (vendored dependency of docsrv)

`semver.NewVersion` matches the anchored regular expression
`v?([0-9]+)(\.[0-9]+)?(\.[0-9]+)?(-([0-9A-Za-z-]+(\.[0-9A-Za-z-]+)*))?`
`(\+([0-9A-Za-z-]+(\.[0-9A-Za-z-]+)*))?` and parses the three numeric
segments with `strconv.ParseInt(_, 10, 64)`; `Version.Compare` compares the
numeric segments and then the dot-separated prerelease identifiers.  The
regular expression is translated as a deterministic sequential parser (the
character classes are disjoint from the separators, so no backtracking can
occur). -/

/-- Masterminds `semver.Version`: three numeric segments, prerelease and
metadata strings, and the original input. -/
structure SemVer where
  major : Nat
  minor : Nat
  patch : Nat
  pre : String
  metadata : String
  original : String
deriving DecidableEq

/-- Largest `int64`, the bound enforced by `strconv.ParseInt(_, 10, 64)`. -/
def maxInt64 : Nat := 9223372036854775807

/-- Value of an all-digit character run. -/
def digitsToNat (cs : List Char) : Nat :=
  cs.foldl (fun n c => n * 10 + (c.toNat - 48)) 0

/-- Character class `[0-9A-Za-z-]` of prerelease/metadata identifiers. -/
def isIdentChar (c : Char) : Bool := c.isAlphanum || c = '-'

/-- Parses `ident ('.' ident)*` with `ident = [0-9A-Za-z-]+`, returning the
identifiers and the unconsumed rest.  Fuel-driven recursion; the fuel
`cs.length + 1` always suffices since every step consumes at least one
character. -/
def parseIdentsAux : Nat → List Char → Option (List (List Char) × List Char)
  | 0, _ => none
  | fuel + 1, cs =>
    match cs.span isIdentChar with
    | ([], _) => none
    | (id, '.' :: rest) =>
      match parseIdentsAux fuel rest with
      | none => none
      | some (ids, r) => some (id :: ids, r)
    | (id, rest) => some ([id], rest)

/-- Entry point for the identifier-sequence parser. -/
def parseIdents (cs : List Char) : Option (List (List Char) × List Char) :=
  parseIdentsAux (cs.length + 1) cs

/-- Parses the optional group `(\.[0-9]+)?`: when the next character is a
dot, digits must follow (the regex can consume a dot in no other way), and
`ParseInt` bounds the value. -/
def parseOptDotNum : List Char → Option (Nat × List Char)
  | '.' :: rest =>
    match rest.span Char.isDigit with
    | ([], _) => none
    | (ds, r) =>
      if digitsToNat ds > maxInt64 then none else some (digitsToNat ds, r)
  | cs => some (0, cs)

/-- Parses the optional `-prerelease` / `+metadata` group introduced by
`intro`, returning the matched identifiers joined with dots. -/
def parseOptGroup (intro : Char) : List Char → Option (String × List Char)
  | c :: rest =>
    if c = intro then
      match parseIdents rest with
      | none => none
      | some (ids, r) => some (String.mk (List.intercalate ['.'] ids), r)
    else some ("", c :: rest)
  | [] => some ("", [])

/-- `semver.NewVersion` returning `none` on `ErrInvalidSemVer` (and hence
the result of `semver.MustParse`, whose panic is the `none` case). -/
def semverParse (s : String) : Option SemVer :=
  let cs := match s.data with
    | 'v' :: rest => rest
    | cs => cs
  match cs.span Char.isDigit with
  | ([], _) => none
  | (maj, r1) =>
    if digitsToNat maj > maxInt64 then none else
    match parseOptDotNum r1 with
    | none => none
    | some (minor, r2) =>
      match parseOptDotNum r2 with
      | none => none
      | some (patch, r3) =>
        match parseOptGroup '-' r3 with
        | none => none
        | some (pre, r4) =>
          match parseOptGroup '+' r4 with
          | none => none
          | some (meta, r5) =>
            if r5 = [] then
              some ⟨digitsToNat maj, minor, patch, pre, meta, s⟩
            else none

/-- `strconv.ParseInt(s, 10, 64)` as used by `comparePrePart`: optional
sign, all digits, `int64` range. -/
def parseInt64 (s : String) : Option Int :=
  match s.data with
  | [] => none
  | cs =>
    match cs with
    | '-' :: ds =>
      if ds ≠ [] ∧ ds.all Char.isDigit then
        if digitsToNat ds ≤ maxInt64 + 1 then some (-(digitsToNat ds : Int))
        else none
      else none
    | '+' :: ds =>
      if ds ≠ [] ∧ ds.all Char.isDigit then
        if digitsToNat ds ≤ maxInt64 then some (digitsToNat ds : Int)
        else none
      else none
    | ds =>
      if ds.all Char.isDigit then
        if digitsToNat ds ≤ maxInt64 then some (digitsToNat ds : Int)
        else none
      else none

/-- Go `s > o` on strings: lexicographic byte order (the identifiers are
ASCII, so codepoint order coincides). -/
def strGT : List Char → List Char → Bool
  | [], _ => false
  | _ :: _, [] => true
  | a :: ar, b :: br => if a = b then strGT ar br else decide (b < a)

/-- `comparePrePart` from Masterminds semver v1: equal parts are `0`; an
empty part is smaller than a non-empty one; numeric parts compare as
integers and are smaller than non-numeric parts; two non-numeric parts
compare as strings.  Note the source returns `-1` for distinct parts that
parse to the same integer (e.g. `"01"` vs `"1"`), which we reproduce. -/
def comparePrePart (s o : String) : Int :=
  if s = o then 0
  else if s = "" then (if o ≠ "" then -1 else 1)
  else if o = "" then (if s ≠ "" then 1 else -1)
  else
    match parseInt64 o, parseInt64 s with
    | none, none => if strGT s.data o.data then 1 else -1
    | none, some _ => -1
    | some _, none => 1
    | some oi, some si => if oi < si then 1 else -1

/-- `strings.Split(s, ".")` at the character level. -/
def splitDotL : List Char → List (List Char)
  | [] => [[]]
  | c :: rest =>
    match splitDotL rest with
    | [] => [[c]]
    | h :: t => if c = '.' then [] :: h :: t else (c :: h) :: t

/-- The dot-separated parts of a prerelease string. -/
def splitDot (s : String) : List String :=
  (splitDotL s.data).map String.mk

/-- The loop of `comparePrerelease`: `l` iterations, parts are compared
pairwise, a missing part is the placeholder `""`, the first nonzero
comparison wins. -/
def comparePreLoop : Nat → List String → List String → Int
  | 0, _, _ => 0
  | l + 1, ss, os =>
    let d := comparePrePart (ss.headD "") (os.headD "")
    if d ≠ 0 then d else comparePreLoop l ss.tail os.tail

/-- `comparePrerelease` from Masterminds semver v1: split both prerelease
strings on `"."` and run the loop over the longer length. -/
def comparePrerelease (v o : String) : Int :=
  let sparts := splitDot v
  let oparts := splitDot o
  comparePreLoop (max sparts.length oparts.length) sparts oparts

/-- `compareSegment` from Masterminds semver v1. -/
def cmpSeg (v o : Nat) : Int := if v < o then -1 else if o < v then 1 else 0

/-- `Version.Compare` from Masterminds semver v1: numeric segments first,
then absence of prerelease beats presence, then prerelease identifiers. -/
def semverCompare (v o : SemVer) : Int :=
  let d := cmpSeg v.major o.major
  if d ≠ 0 then d else
  let d := cmpSeg v.minor o.minor
  if d ≠ 0 then d else
  let d := cmpSeg v.patch o.patch
  if d ≠ 0 then d else
  if v.pre = "" ∧ o.pre = "" then 0
  else if v.pre = "" then 1
  else if o.pre = "" then -1
  else comparePrerelease v.pre o.pre

/-- `Version.LessThan`: `v.Compare(o) < 0`. -/
def semverLtB (v o : SemVer) : Bool := semverCompare v o < 0

end Docsrv

namespace Docsrv

/-- Default used only to name the panic value of `semver.MustParse`; results
are never claimed when a parse fails. -/
def semverZero : SemVer := ⟨0, 0, 0, "", "", ""⟩

/-- `projectIndex.trySetLatestVersion` from `docsrv/index.go`: when
`latestVersion` reports an existing fresh version `v`, both `v` and the
candidate are parsed by `newVersion` (= `semver.MustParse`, whose panic on
an unparseable tag is modelled as `none`), and the entry is overwritten only
when `v1.LessThan(v2)`. -/
def ProjectIndex.trySetLatestVersion (st : ProjectIndex) (now : Nat)
    (owner project version : String) : Option ProjectIndex :=
  match st.latestVersion now owner project with
  | (v, true) =>
    match semverParse v, semverParse version with
    | some v1, some v2 =>
      some (if semverLtB v1 v2
        then st.setLatestVersion now owner project version
        else st)
    | _, _ => none
  | (_, false) => some st

/-! ## Claim C5: `trySet` overwrites iff a fresh entry exists and is
strictly smaller. -/

/-- Claim C5: under a real clock (`lifetime ≤ now`) and for tags that parse,
`trySetLatestVersion` (1) never creates the first entry for a project,
(2) is a no-op when no fresh entry exists, (3) when a fresh entry exists,
overwrites exactly when the cached version is strictly less than the
candidate under semver ordering, and (4) never replaces an equal version. -/
theorem trySetLatestVersion_spec (st : ProjectIndex) (now : Nat)
    (owner project version : String)
    (hnow : latestVersionLifetime ≤ now) :
    (st.latestVersions (newKey [owner, project]) = none →
      st.trySetLatestVersion now owner project version = some st) ∧
    ((st.latestVersion now owner project).2 = false →
      st.trySetLatestVersion now owner project version = some st) ∧
    (∀ e, st.latestVersions (newKey [owner, project]) = some e →
      now < e.cachedAt + latestVersionLifetime →
      ∀ v1 v2, semverParse e.version = some v1 →
        semverParse version = some v2 →
        st.trySetLatestVersion now owner project version =
          some (if semverLtB v1 v2
            then st.setLatestVersion now owner project version
            else st)) ∧
    (∀ e, st.latestVersions (newKey [owner, project]) = some e →
      now < e.cachedAt + latestVersionLifetime →
      ∀ v1 v2, semverParse e.version = some v1 →
        semverParse version = some v2 → semverCompare v1 v2 = 0 →
        st.trySetLatestVersion now owner project version = some st) := by
  have hfresh : ∀ e, st.latestVersions (newKey [owner, project]) = some e →
      now < e.cachedAt + latestVersionLifetime →
      st.latestVersion now owner project = (e.version, true) := by
    intro e he hf
    simp [ProjectIndex.latestVersion, he, LatestVersion.isExpired, hf]
  refine ⟨?_, ?_, ?_, ?_⟩
  · intro he
    have : st.latestVersion now owner project = ("", false) := by
      simp [ProjectIndex.latestVersion, he, LatestVersion.isExpired]
      omega
    simp [ProjectIndex.trySetLatestVersion, this]
  · intro hsnd
    rcases hres : st.latestVersion now owner project with ⟨v, b⟩
    cases b with
    | true => rw [hres] at hsnd; simp at hsnd
    | false => simp [ProjectIndex.trySetLatestVersion, hres]
  · intro e he hf v1 v2 hp1 hp2
    rw [ProjectIndex.trySetLatestVersion, hfresh e he hf]
    simp [hp1, hp2]
  · intro e he hf v1 v2 hp1 hp2 heq
    rw [ProjectIndex.trySetLatestVersion, hfresh e he hf]
    simp [hp1, hp2, semverLtB, heq]

/-- Witness for `trySetLatestVersion_spec`: a concrete fresh `v1.0.0` entry
and candidate `v2.0.0` (which overwrites). -/
theorem trySetLatestVersion_spec_witness :
    latestVersionLifetime ≤ latestVersionLifetime + 1 ∧
    ((newProjectIndex.setLatestVersion latestVersionLifetime "o" "p"
        "v1.0.0").trySetLatestVersion (latestVersionLifetime + 1) "o" "p"
        "v2.0.0" =
      some (if semverLtB ⟨1, 0, 0, "", "", "v1.0.0"⟩
          ⟨2, 0, 0, "", "", "v2.0.0"⟩
        then (newProjectIndex.setLatestVersion latestVersionLifetime "o" "p"
          "v1.0.0").setLatestVersion (latestVersionLifetime + 1) "o" "p"
          "v2.0.0"
        else newProjectIndex.setLatestVersion latestVersionLifetime "o" "p"
          "v1.0.0")) :=
  ⟨Nat.le_succ _,
    (trySetLatestVersion_spec
      (newProjectIndex.setLatestVersion latestVersionLifetime "o" "p"
        "v1.0.0")
      (latestVersionLifetime + 1) "o" "p" "v2.0.0" (Nat.le_succ _)).2.2.1
      ⟨latestVersionLifetime, "v1.0.0"⟩ (by decide) (by decide)
      ⟨1, 0, 0, "", "", "v1.0.0"⟩ ⟨2, 0, 0, "", "", "v2.0.0"⟩
      (by decide) (by decide)⟩

end Docsrv

namespace Docsrv

/-! ## Claim C8: `buildDocs` cleanup behaviour (`docsrv/build.go`). -/

/-- Outcome environment for one `buildDocs` run: whether each I/O step of
`docsrv/build.go` succeeds (`http.Get`, `ioutil.TempDir`,
`unpackit.Unpack`, the `make docs` subprocess, `os.RemoveAll`). -/
structure BuildWorld where
  httpGetOk : Bool
  tempDirOk : Bool
  unpackOk : Bool
  buildExitOk : Bool
  removeOk : Bool
deriving DecidableEq

/-- The possible return values of `buildDocs`. -/
inductive BuildResult where
  | success
  | fetchErr
  | tempErr
  | extractErr
  | buildErr
deriving DecidableEq

/-- `buildDocs` from `docsrv/build.go`, with the control flow made explicit
over the outcome environment.  The second component records whether
`os.RemoveAll(dir)` was reached: in the source it sits after the `make docs`
error return, so it only runs on the success path, and its own failure is
only logged (`logrus.Warnf`), never returned. -/
def buildDocs (w : BuildWorld) : BuildResult × Bool :=
  if !w.httpGetOk then (.fetchErr, false)
  else if !w.tempDirOk then (.tempErr, false)
  else if !w.unpackOk then (.extractErr, false)
  else if !w.buildExitOk then (.buildErr, false)
  else (.success, true)

/-- Claim C8 as stated is false at a concrete input: when the archive
fetches and extracts but `make docs` exits non-zero, `buildDocs` returns the
build error without ever attempting removal of the temporary directory
(and likewise for an extraction error). -/
theorem buildDocs_no_cleanup_on_failure :
    (buildDocs ⟨true, true, true, false, true⟩).2 = false ∧
      (buildDocs ⟨true, true, true, false, true⟩).1 = .buildErr ∧
      (buildDocs ⟨true, true, false, true, true⟩).2 = false ∧
      (buildDocs ⟨true, true, false, true, true⟩).1 = .extractErr := by
  decide

/-- Amended claim C8: `buildDocs` attempts best-effort removal of the
temporary extraction directory only on the success path — exactly when every
preceding step succeeded — and a failure of that cleanup is logged but never
changes the result: the outcome is independent of the `RemoveAll` outcome. -/
theorem buildDocs_cleanup_spec (w : BuildWorld) :
    ((buildDocs w).2 = true ↔
      (w.httpGetOk && w.tempDirOk && w.unpackOk && w.buildExitOk) = true) ∧
    ((buildDocs w).2 = true ↔ (buildDocs w).1 = .success) ∧
    buildDocs w = buildDocs { w with removeOk := true } := by
  rcases w with ⟨hg, td, up, be, rm⟩
  cases hg <;> cases td <;> cases up <;> cases be <;> cases rm <;> decide

end Docsrv

namespace Docsrv

/-! ## The docsrv `Service` (final `docsrv`-package revision): configuration,
requests, URL helpers and the three HTTP handlers. -/

/-- `ProjectConfig` from the docsrv config file: `repository` is
`"owner/project"`, `minVersion` an optional semver floor. -/
structure ProjectConfig where
  repository : String
  minVersion : String
deriving DecidableEq

/-- `Config`: a map from hosts to project configurations. -/
def Config := String → Option ProjectConfig

/-- `strings.Split(s, "/")` at the character level. -/
def splitSlashL : List Char → List (List Char)
  | [] => [[]]
  | c :: rest =>
    match splitSlashL rest with
    | [] => [[c]]
    | h :: t => if c = '/' then [] :: h :: t else (c :: h) :: t

/-- `strings.Split(s, "/")`. -/
def splitSlash (s : String) : List String :=
  (splitSlashL s.data).map String.mk

/-- `Config.ProjectForHost`: looks up the host and splits the configured
repository on `"/"`; any split arity other than two reports not-found. -/
def Config.projectForHost (c : Config) (host : String) :
    Option (String × String) :=
  match c host with
  | none => none
  | some proj =>
    match splitSlash proj.repository with
    | [owner, repo] => some (owner, repo)
    | _ => none

/-- An HTTP request as the handlers observe it: `host` is `r.Host`, `path`
is `r.URL.Path`, `token` is `r.URL.Query().Get("token")` (empty when
absent), `urlScheme` is `r.URL.Scheme`, `xForwardedProto` the
`X-Forwarded-Proto` header (empty when absent), and `urlString` is
`r.URL.String()`. -/
structure Request where
  host : String
  path : String
  token : String
  urlScheme : String
  xForwardedProto : String
  urlString : String
deriving DecidableEq

/-- The observable outcomes of one handler call: a temporary redirect with
its `Location`, or a bare `404` status (`w.WriteHeader`). -/
inductive Response where
  | redirect307 (location : String)
  | notFoundStatus
deriving DecidableEq

/-- `reqScheme` from `docsrv.go`: the URL scheme, else `X-Forwarded-Proto`,
else `"http"`. -/
def reqScheme (r : Request) : String :=
  if r.urlScheme ≠ "" then r.urlScheme
  else if r.xForwardedProto ≠ "" then r.xForwardedProto
  else "http"

/-- One segment step of Go `path.Clean`, over a reversed stack of kept
segments: empty and `"."` segments vanish, `".."` pops a poppable segment
(and is itself kept when nothing can be popped in a relative path), anything
else is kept. -/
def cleanStep (rooted : Bool) (acc : List String) (seg : String) :
    List String :=
  if seg = "" ∨ seg = "." then acc
  else if seg = ".." then
    match acc with
    | s :: rest => if s = ".." then seg :: s :: rest else rest
    | [] => if rooted then [] else [seg]
  else seg :: acc

/-- Go `path.Clean` (= `filepath.Clean` with separator `'/'`), in its
standard segment formulation: split on `'/'`, process the segments, rejoin,
restore the leading slash, and map an empty result to `"/"` or `"."`. -/
def goPathClean (s : String) : String :=
  if s = "" then "." else
  let rooted := s.data.head? = some '/'
  let acc := (splitSlash s).foldl (cleanStep rooted) []
  let body := joinSlash acc.reverse
  if rooted then (if body = "" then "/" else "/" ++ body)
  else (if body = "" then "." else body)

/-- Go `filepath.Join` (unix): skip to the first non-empty element, join the
remainder with `"/"`, and `Clean` the result; all-empty input yields `""`. -/
def filepathJoin : List String → String
  | [] => ""
  | e :: rest =>
    if e = "" then filepathJoin rest
    else goPathClean (joinSlash (e :: rest))

/-- `urlFor` from `docsrv.go`:
`reqScheme(r) + "://" + filepath.Join(r.Host, version, path)`. -/
def urlFor (r : Request) (version path : String) : String :=
  reqScheme r ++ "://" ++ filepathJoin [r.host, version, path]

/-- `strings.HasSuffix(url, "/")` (single-character suffix). -/
def hasSuffixSlash (s : String) : Bool := s.data.getLast? = some '/'

/-- `ensureEndingSlash` from `docsrv.go`. -/
def ensureEndingSlash (url : String) : String :=
  if hasSuffixSlash url then url else url ++ "/"

/-- Leftmost-match helper: the rest of `s` after the pattern when the
pattern starts `s`. -/
def stripPrefL : List Char → List Char → Option (List Char)
  | [], s => some s
  | _ :: _, [] => none
  | p :: ps, c :: cs => if c = p then stripPrefL ps cs else none

/-- `strings.Replace(s, pat, rep, 1)` for a non-empty pattern: replace the
leftmost occurrence, if any. -/
def replaceFirstAux (pat rep : List Char) : List Char → List Char
  | [] => []
  | c :: cs =>
    match stripPrefL pat (c :: cs) with
    | some rest => rep ++ rest
    | none => c :: replaceFirstAux pat rep cs

/-- `strings.Replace(s, pat, rep, 1)` for a non-empty pattern. -/
def replaceFirst (s pat rep : String) : String :=
  String.mk (replaceFirstAux pat.data rep.data s.data)

/-- `versionFromReq` from `docsrv.go`:
`strings.Split(strings.TrimLeft(r.URL.Path, "/"), "/")[0]`. -/
def versionFromPath (path : String) : String :=
  String.mk ((path.data.dropWhile (fun c => c = '/')).takeWhile
    (fun c => c ≠ '/'))

/-- `notFound` from `docsrv.go`: a `307` to
`fmt.Sprintf("%s://%s/404/", reqScheme(r), r.Host)`. -/
def notFoundR (r : Request) : Response :=
  .redirect307 (reqScheme r ++ "://" ++ r.host ++ "/404/")

/-- `internalError` from `docsrv.go`: a `307` to
`fmt.Sprintf("%s://%s/500/", reqScheme(r), r.Host)`. -/
def internalErrorR (r : Request) : Response :=
  .redirect307 (reqScheme r ++ "://" ++ r.host ++ "/500/")

/-- `redirectToVersion` from `docsrv.go`: strip the first `"/latest/"` from
the path, build the URL, and append a slash when the remaining path is
empty. -/
def redirectToVersionR (r : Request) (version : String) : Response :=
  let path := replaceFirst r.path "/latest/" ""
  let url := urlFor r version path
  .redirect307 (if path = "" then ensureEndingSlash url else url)

/-- Abstract release fetcher: the composite
`s.fetcher.releases(owner, project, s.index.minVersion(owner, project))`
called by `Service.indexProject`.  Both factors depend only on the immutable
configuration and the remote release list, so for a fixed service this is
one function of `(owner, project)`; an `error` return aborts indexing. -/
def Fetcher := String → String → Except Unit (List Release)

/-- `Service.indexProject`: fetch the releases and `set` them (a full
overwrite); a fetch error is returned and nothing is written. -/
def indexProject (st : ProjectIndex) (f : Fetcher) (owner project : String) :
    Except Unit ProjectIndex :=
  match f owner project with
  | .error e => .error e
  | .ok rs => .ok (st.set owner project rs)

/-- `Service.ensureIndexed` (final revision, with the refresh-token bypass):
a non-empty token equal to the configured secret forces `indexProject`
unconditionally; otherwise (including a non-empty but wrong token, which is
merely logged) `indexProject` runs only when the project is not yet
indexed. -/
def ensureIndexed (st : ProjectIndex) (f : Fetcher)
    (refreshSecret token owner project : String) :
    Except Unit ProjectIndex :=
  if token ≠ "" ∧ token = refreshSecret then indexProject st f owner project
  else if ¬ st.isIndexed owner project then indexProject st f owner project
  else .ok st

/-- `Service.redirectToLatest` (final revision): resolve the project from
the host, ensure it is indexed, and redirect to the last release of the
stored list (`releases[len(releases)-1]`); an empty list is not-found, an
indexing error is an internal error. -/
def redirectToLatest (cfg : Config) (refreshSecret : String)
    (st : ProjectIndex) (f : Fetcher) (r : Request) :
    Response × ProjectIndex :=
  match cfg.projectForHost r.host with
  | none => (notFoundR r, st)
  | some (owner, project) =>
    match ensureIndexed st f refreshSecret r.token owner project with
    | .error _ => (internalErrorR r, st)
    | .ok st' =>
      let releases := st'.forProject owner project
      if releases.length = 0 then (notFoundR r, st')
      else (redirectToVersionR r (releases.getLastD ⟨"", ""⟩).tag, st')

/-- Filesystem/build outcomes observed by one `prepareVersion` call:
`os.MkdirAll` and the `buildDocs` world. -/
structure FsWorld where
  mkdirOk : Bool
  build : BuildWorld
deriving DecidableEq

/-- `Service.prepareVersion` (final revision): resolve the project, ensure
indexed, and for an already-installed version answer a bare `404` when the
version segment is not a valid semver (a missing static asset) and the full
not-found redirect otherwise; for a known but uninstalled version create the
destination, build, mark installed and redirect back to the same URL; an
unknown version is not-found. -/
def prepareVersion (cfg : Config) (refreshSecret : String)
    (st : ProjectIndex) (f : Fetcher) (w : FsWorld) (r : Request) :
    Response × ProjectIndex :=
  match cfg.projectForHost r.host with
  | none => (notFoundR r, st)
  | some (owner, project) =>
    let version := versionFromPath r.path
    match ensureIndexed st f refreshSecret r.token owner project with
    | .error _ => (internalErrorR r, st)
    | .ok st' =>
      if st'.isInstalled owner project version then
        if (semverParse version).isSome then (notFoundR r, st')
        else (.notFoundStatus, st')
      else
        match st'.get owner project version with
        | none => (notFoundR r, st')
        | some _release =>
          if ¬ w.mkdirOk then (internalErrorR r, st')
          else if (buildDocs w.build).1 ≠ .success then
            (internalErrorR r, st')
          else (.redirect307 r.urlString,
            st'.install owner project version)

end Docsrv

namespace Docsrv

/-! ## Claim C9: the refresh-token bypass of `ensureIndexed`. -/

/-- Claim C9: a non-empty token equal to the configured secret makes
`ensureIndexed` re-fetch and overwrite unconditionally (even when already
indexed); an empty or non-matching token fetches only when the project was
never indexed and is a no-op otherwise. -/
theorem ensureIndexed_refresh_spec (st : ProjectIndex) (f : Fetcher)
    (secret token owner project : String) :
    (token ≠ "" → token = secret →
      ensureIndexed st f secret token owner project =
        match f owner project with
        | .error e => .error e
        | .ok rs => .ok (st.set owner project rs)) ∧
    (token = "" ∨ token ≠ secret →
      ensureIndexed st f secret token owner project =
        if st.isIndexed owner project then .ok st
        else match f owner project with
          | .error e => .error e
          | .ok rs => .ok (st.set owner project rs)) := by
  constructor
  · intro h1 h2
    subst h2
    simp [ensureIndexed, indexProject, h1]
  · intro h
    have hcond : ¬ (token ≠ "" ∧ token = secret) := by
      rcases h with h | h
      · simp [h]
      · simp [h]
    by_cases hidx : st.isIndexed owner project = true
    · simp [ensureIndexed, hcond, hidx]
    · simp only [Bool.not_eq_true] at hidx
      simp [ensureIndexed, indexProject, hcond, hidx]

/-- A fetcher stub returning one fixed release list. -/
def fetcherV2 : Fetcher := fun _ _ => .ok [⟨"v2.0.0", "u2"⟩]

/-- Witness for `ensureIndexed_refresh_spec`: a matching token re-fetches
and overwrites an already-indexed project. -/
theorem ensureIndexed_refresh_spec_witness :
    ("tok" : String) ≠ "" ∧
    ensureIndexed (newProjectIndex.set "acme" "widget" [⟨"v1.0.0", "u1"⟩])
        fetcherV2 "tok" "tok" "acme" "widget" =
      .ok ((newProjectIndex.set "acme" "widget" [⟨"v1.0.0", "u1"⟩]).set
        "acme" "widget" [⟨"v2.0.0", "u2"⟩]) :=
  ⟨by decide,
    by
      have h := (ensureIndexed_refresh_spec
        (newProjectIndex.set "acme" "widget" [⟨"v1.0.0", "u1"⟩])
        fetcherV2 "tok" "tok" "acme" "widget").1 (by decide) rfl
      simpa [fetcherV2] using h⟩

/-! ## Claim C6: `prepareVersion` on an already-installed version. -/

/-- Claim C6: for a request whose resolved `(owner, project, version)` is
already marked installed (project indexed, no refresh token), the response
is the bare `404` status exactly when the version segment does not parse as
a semantic version, and the full not-found redirect
(`<scheme>://<host>/404/`) when it does; the store is unchanged. -/
theorem prepareVersion_installed_spec (cfg : Config) (secret : String)
    (st : ProjectIndex) (f : Fetcher) (w : FsWorld) (r : Request)
    (owner project : String)
    (hproj : cfg.projectForHost r.host = some (owner, project))
    (htok : r.token = "")
    (hidx : st.isIndexed owner project = true)
    (hinst : st.isInstalled owner project (versionFromPath r.path) = true) :
    prepareVersion cfg secret st f w r =
      ((if (semverParse (versionFromPath r.path)).isSome
        then notFoundR r else Response.notFoundStatus), st) := by
  have he : ensureIndexed st f secret r.token owner project = .ok st := by
    simp [ensureIndexed, htok, hidx]
  unfold prepareVersion
  rw [hproj]
  simp only [he, hinst]
  by_cases hp : (semverParse (versionFromPath r.path)).isSome <;> simp [hp]

/-- Host configuration used by the service witnesses. -/
def cfgWidget : Config :=
  fun h => if h = "widget.example.com"
    then some ⟨"acme/widget", ""⟩ else none

/-- A request for `/guide.html` on the widget host, with no token. -/
def reqGuide : Request :=
  ⟨"widget.example.com", "/guide.html", "", "", "", "/guide.html"⟩

/-- Store with `acme/widget` indexed and `guide.html` marked installed. -/
def stGuide : ProjectIndex :=
  (newProjectIndex.set "acme" "widget" [⟨"v2.0.0", "u"⟩]).install
    "acme" "widget" "guide.html"

/-- Witness for `prepareVersion_installed_spec`: `guide.html` is installed
but not a semver, so the response is the bare `404`. -/
theorem prepareVersion_installed_spec_witness :
    cfgWidget.projectForHost reqGuide.host = some ("acme", "widget") ∧
    stGuide.isInstalled "acme" "widget" (versionFromPath reqGuide.path)
      = true ∧
    prepareVersion cfgWidget "sec" stGuide fetcherV2
        ⟨true, ⟨true, true, true, true, true⟩⟩ reqGuide =
      ((if (semverParse (versionFromPath reqGuide.path)).isSome
        then notFoundR reqGuide else Response.notFoundStatus), stGuide) :=
  ⟨by decide, by decide,
    prepareVersion_installed_spec cfgWidget "sec" stGuide fetcherV2
      ⟨true, ⟨true, true, true, true, true⟩⟩ reqGuide "acme" "widget"
      (by decide) rfl (by decide) (by decide)⟩

end Docsrv

namespace Docsrv

/-! ## Claim C3: `GET /latest/<rest>` redirects to the last release. -/

/-- `newVersion` from `docsrv/github.go` (`semver.MustParse`), totalised
with `semverZero` as the panic value; no result is ever claimed unless the
tags parse. -/
def mustParseD (v : String) : SemVer := (semverParse v).getD semverZero

/-- `byTag.Less` from `docsrv/github.go`: compares two releases by their
parsed tags. -/
def byTagLt (a b : Release) : Bool :=
  semverLtB (mustParseD a.tag) (mustParseD b.tag)

/-- A non-empty string has non-empty character data. -/
theorem strDataNeNil {s : String} (h : s ≠ "") : s.data ≠ [] := by
  intro hd
  apply h
  cases s
  simp at hd
  simp [hd]

/-- Stripping a pattern from a string it starts succeeds with the rest. -/
theorem stripPrefL_append (p s : List Char) :
    stripPrefL p (p ++ s) = some s := by
  induction p with
  | nil => rfl
  | cons c ps ih => simp [stripPrefL, ih]

/-- `strings.Replace(pat ++ rest, pat, "", 1)` removes the leading
pattern. -/
theorem replaceFirst_strip (pat rest : String) (h : pat.data ≠ []) :
    replaceFirst (pat ++ rest) pat "" = rest := by
  cases rest with
  | mk rdata =>
    unfold replaceFirst
    rw [String.data_append]
    cases hp : pat.data with
    | nil => exact absurd hp h
    | cons c ps =>
      show String.mk (replaceFirstAux (c :: ps) [] ((c :: ps) ++ rdata)) = _
      simp [replaceFirstAux, stripPrefL, stripPrefL_append]

/-- A suffix check only sees the right factor when it is non-empty. -/
theorem hasSuffixSlash_append (a b : String) (hb : b.data ≠ []) :
    hasSuffixSlash (a ++ b) = hasSuffixSlash b := by
  unfold hasSuffixSlash
  rw [String.data_append, List.getLast?_append]
  obtain ⟨c, hc⟩ := Option.isSome_iff_exists.mp
    (List.getLast?_isSome.mpr hb)
  rw [hc]
  rfl

/-- Claim C3: a `GET /latest/<rest>` request (no token) on an indexed
project whose stored release list is non-empty and sorted ascending is
answered with a `307` to `<scheme>://<host>/<tag>/<rest>`, where `tag` is
the tag of the last (maximum) release, the literal `"/latest/"` prefix is
stripped, and a trailing slash is appended when `<rest>` is empty.  The
cleanliness hypothesis `hclean` states that the joined path contains no
empty, `"."` or `".."` segments for `filepath.Join` to rewrite. -/
theorem redirectToLatest_spec (cfg : Config) (secret : String)
    (st : ProjectIndex) (f : Fetcher) (r : Request)
    (owner project rest : String) (rs : List Release) (lastRel : Release)
    (hproj : cfg.projectForHost r.host = some (owner, project))
    (htok : r.token = "")
    (hidx : st.isIndexed owner project = true)
    (hfor : st.forProject owner project = rs)
    (hlast : rs.getLast? = some lastRel)
    (hsorted : List.Pairwise (fun a b => byTagLt b a = false) rs)
    (hpath : r.path = "/latest/" ++ rest)
    (hhost : r.host ≠ "")
    (htag : lastRel.tag ≠ "")
    (htagslash : lastRel.tag.data.getLast? ≠ some '/')
    (hclean : goPathClean (r.host ++ "/" ++ lastRel.tag ++ "/" ++ rest)
      = r.host ++ "/" ++ lastRel.tag ++
        (if rest = "" then "" else "/" ++ rest)) :
    redirectToLatest cfg secret st f r =
      (.redirect307 (reqScheme r ++ "://" ++ r.host ++ "/" ++ lastRel.tag ++
        (if rest = "" then "/" else "/" ++ rest)), st) := by
  have hne : rs ≠ [] := by
    intro hnil
    rw [hnil] at hlast
    simp at hlast
  have he : ensureIndexed st f secret r.token owner project = .ok st := by
    simp [ensureIndexed, htok, hidx]
  have hjoin : joinSlash [r.host, lastRel.tag, rest]
      = r.host ++ "/" ++ lastRel.tag ++ "/" ++ rest := by
    simp [joinSlash, String.append_assoc]
  have hpath2 : replaceFirst r.path "/latest/" "" = rest := by
    rw [hpath]
    exact replaceFirst_strip _ _ (by decide)
  have hlastD : rs.getLastD ⟨"", ""⟩ = lastRel := by
    rw [List.getLastD_eq_getLast? ⟨"", ""⟩ rs, hlast]
    rfl
  have htd : lastRel.tag.data ≠ [] := strDataNeNil htag
  have hsuf : hasSuffixSlash lastRel.tag = false := by
    unfold hasSuffixSlash
    simpa using htagslash
  unfold redirectToLatest
  rw [hproj]
  simp only [he]
  rw [hfor]
  rw [if_neg (by simpa [List.length_eq_zero] using hne)]
  rw [hlastD]
  unfold redirectToVersionR urlFor filepathJoin
  simp only [hpath2]
  rw [if_neg hhost, hjoin]
  by_cases hrest : rest = ""
  · subst hrest
    have hclean2 : goPathClean (r.host ++ "/" ++ lastRel.tag ++ "/" ++ "")
        = r.host ++ "/" ++ lastRel.tag := by
      simpa using hclean
    rw [hclean2, if_pos rfl]
    have hb1 : (r.host ++ "/" ++ lastRel.tag).data ≠ [] := by
      rw [String.data_append]
      simp [htd]
    unfold ensureEndingSlash
    rw [hasSuffixSlash_append _ _ hb1,
      hasSuffixSlash_append _ _ htd]
    rw [if_neg (by simp [hsuf])]
    simp [String.append_assoc]
  · rw [hclean, if_neg hrest, if_neg hrest, if_neg hrest]
    simp [String.append_assoc]

end Docsrv

namespace Docsrv

/-- Request `GET /latest/` on the widget host (scenario A). -/
def reqLatest : Request :=
  ⟨"widget.example.com", "/latest/", "", "", "", "/latest/"⟩

/-- Store with `acme/widget` indexed at `[v1.0.0, v2.0.0]`. -/
def stLatest : ProjectIndex :=
  newProjectIndex.set "acme" "widget"
    [⟨"v1.0.0", "u1"⟩, ⟨"v2.0.0", "u2"⟩]

/-- Witness for `redirectToLatest_spec`: `GET /latest/` on
`widget.example.com` with releases `v1.0.0, v2.0.0` redirects to
`http://widget.example.com/v2.0.0/`. -/
theorem redirectToLatest_spec_witness :
    stLatest.forProject "acme" "widget"
      = [⟨"v1.0.0", "u1"⟩, ⟨"v2.0.0", "u2"⟩] ∧
    redirectToLatest cfgWidget "sec" stLatest fetcherV2 reqLatest =
      (.redirect307 (reqScheme reqLatest ++ "://" ++ reqLatest.host ++ "/"
        ++ (⟨"v2.0.0", "u2"⟩ : Release).tag ++
        (if ("" : String) = "" then "/" else "/" ++ "")), stLatest) ∧
    reqScheme reqLatest ++ "://" ++ reqLatest.host ++ "/"
        ++ (⟨"v2.0.0", "u2"⟩ : Release).tag ++
        (if ("" : String) = "" then "/" else "/" ++ "")
      = "http://widget.example.com/v2.0.0/" :=
  ⟨by decide,
    redirectToLatest_spec cfgWidget "sec" stLatest fetcherV2 reqLatest
      "acme" "widget" "" [⟨"v1.0.0", "u1"⟩, ⟨"v2.0.0", "u2"⟩]
      ⟨"v2.0.0", "u2"⟩ (by decide) rfl (by decide) (by decide) (by decide)
      (by decide) (by decide) (by decide) (by decide) (by decide)
      (by decide),
    by decide⟩

end Docsrv

namespace Docsrv

/-! ## Claim C7: the release fetcher (`githubFetcher.releases`). -/

/-- `github.RepositoryRelease` as the fetcher reads it: the four accessed
pointer fields, `nil` as `none`. -/
structure GHRelease where
  draft : Option Bool
  prerelease : Option Bool
  tagName : Option String
  tarballURL : Option String
deriving DecidableEq

/-- `maybeBool`: dereference or `false`. -/
def maybeBool (b : Option Bool) : Bool := b.getD false

/-- `maybeStr`: dereference or `""`. -/
def maybeStr (s : Option String) : String := s.getD ""

/-- `newRelease` from the fetcher: `nil`, draft and prerelease entries
become `nil`; every other entry is kept, whatever its tag. -/
def newRelease : Option GHRelease → Option Release
  | none => none
  | some r =>
    if maybeBool r.draft || maybeBool r.prerelease then none
    else some ⟨maybeStr r.tagName, maybeStr r.tarballURL⟩

/-- Stable insertion under `byTag.Less`.  (`sort.Sort` is an unstable
introsort; for a strict-weak `Less` its output is sorted and a permutation
of the input, and those are the only properties stated below.) -/
def insertByTag (r : Release) : List Release → List Release
  | [] => [r]
  | x :: xs => if byTagLt r x then r :: x :: xs else x :: insertByTag r xs

/-- `sort.Sort(byTag(result))`, modelled as insertion sort. -/
def sortByTag : List Release → List Release
  | [] => []
  | r :: rs => insertByTag r (sortByTag rs)

/-- The page loop of `githubFetcher.releases`: each page is either a
transport error (which aborts with that error) or a list of repository
releases, filtered through `newRelease` and accumulated in order. -/
def fetchAllPages :
    List (Except Unit (List (Option GHRelease))) →
      Except Unit (List Release)
  | [] => .ok []
  | .error e :: _ => .error e
  | .ok page :: rest =>
    match fetchAllPages rest with
    | .error e => .error e
    | .ok acc => .ok (page.filterMap newRelease ++ acc)

/-- `githubFetcher.releases` (`docsrv` revision): collect all pages, then
sort by tag. -/
def githubReleases
    (pages : List (Except Unit (List (Option GHRelease)))) :
    Except Unit (List Release) :=
  match fetchAllPages pages with
  | .error e => .error e
  | .ok rs => .ok (sortByTag rs)

/-- Claim C7 as stated is false at a concrete input: a non-draft,
non-prerelease release whose tag `"not-a-version"` does not parse as a
semantic version is returned by `releases` rather than silently dropped. -/
theorem githubReleases_keeps_unparseable :
    githubReleases
        [.ok [some ⟨some false, some false, some "not-a-version",
          some "u"⟩]]
      = .ok [⟨"not-a-version", "u"⟩] ∧
    semverParse "not-a-version" = none :=
  ⟨rfl, by decide⟩

/-- Membership in an insertion. -/
theorem mem_insertByTag {r x : Release} {l : List Release} :
    x ∈ insertByTag r l ↔ x = r ∨ x ∈ l := by
  induction l with
  | nil => simp [insertByTag]
  | cons a l ih =>
    by_cases h : byTagLt r a = true
    · simp [insertByTag, h]
    · simp only [insertByTag, if_neg h, List.mem_cons, ih]
      tauto

/-- Insertion is a permutation of consing. -/
theorem perm_insertByTag (r : Release) (l : List Release) :
    (insertByTag r l).Perm (r :: l) := by
  induction l with
  | nil => simp [insertByTag]
  | cons a l ih =>
    by_cases h : byTagLt r a = true
    · simp [insertByTag, h]
    · rw [insertByTag, if_neg h]
      exact (ih.cons a).trans (List.Perm.swap r a l)

/-- The sort is a permutation of its input. -/
theorem sortByTag_perm (l : List Release) : (sortByTag l).Perm l := by
  induction l with
  | nil => simp [sortByTag]
  | cons r l ih =>
    exact (perm_insertByTag r (sortByTag l)).trans (ih.cons r)

/-- Inserting into a sorted list keeps it sorted, provided `byTag.Less`
behaves as a strict weak order on the elements involved. -/
theorem pairwise_insertByTag (r : Release) (l : List Release)
    (hl : l.Pairwise (fun a b => byTagLt b a = false))
    (hasym : ∀ a ∈ l, byTagLt r a = true → byTagLt a r = false)
    (htrans : ∀ a ∈ l, ∀ b ∈ l, byTagLt r a = true →
      byTagLt b r = true → byTagLt b a = true) :
    (insertByTag r l).Pairwise (fun a b => byTagLt b a = false) := by
  induction l with
  | nil => simp [insertByTag]
  | cons x xs ih =>
    rw [List.pairwise_cons] at hl
    obtain ⟨hx, hxs⟩ := hl
    by_cases hlt : byTagLt r x = true
    · rw [insertByTag, if_pos hlt]
      refine List.Pairwise.cons ?_ (List.Pairwise.cons hx hxs)
      intro y hy
      rcases List.mem_cons.mp hy with rfl | hy'
      · exact hasym y (List.mem_cons_self _ _) hlt
      · rcases Bool.eq_false_or_eq_true (byTagLt y r) with ht | hf
        · exfalso
          have h1 : byTagLt y x = true :=
            htrans x (List.mem_cons_self _ _) y
              (List.mem_cons_of_mem _ hy') hlt ht
          rw [hx y hy'] at h1
          exact Bool.false_ne_true h1
        · exact hf
    · rw [insertByTag, if_neg hlt]
      refine List.Pairwise.cons ?_ (ih hxs ?_ ?_)
      · intro y hy
        rcases mem_insertByTag.mp hy with rfl | hy'
        · simpa using hlt
        · exact hx y hy'
      · intro a ha hra
        exact hasym a (List.mem_cons_of_mem _ ha) hra
      · intro a ha b hb h1 h2
        exact htrans a (List.mem_cons_of_mem _ ha)
          b (List.mem_cons_of_mem _ hb) h1 h2

/-- The sort output is pairwise non-descending under `byTag.Less`, provided
`byTag.Less` behaves as a strict weak order on the list's elements. -/
theorem pairwise_sortByTag (l : List Release)
    (hasym : ∀ a ∈ l, ∀ b ∈ l, byTagLt a b = true → byTagLt b a = false)
    (htrans : ∀ a ∈ l, ∀ b ∈ l, ∀ c ∈ l, byTagLt a b = true →
      byTagLt b c = true → byTagLt a c = true) :
    (sortByTag l).Pairwise (fun a b => byTagLt b a = false) := by
  induction l with
  | nil => simp [sortByTag]
  | cons r l ih =>
    rw [sortByTag]
    have hsub : ∀ x ∈ sortByTag l, x ∈ l :=
      fun x hx => (sortByTag_perm l).mem_iff.mp hx
    apply pairwise_insertByTag
    · exact ih
        (fun a ha b hb h => hasym a (List.mem_cons_of_mem _ ha)
          b (List.mem_cons_of_mem _ hb) h)
        (fun a ha b hb c hc h1 h2 => htrans a (List.mem_cons_of_mem _ ha)
          b (List.mem_cons_of_mem _ hb) c (List.mem_cons_of_mem _ hc)
          h1 h2)
    · intro a ha hra
      exact hasym r (List.mem_cons_self _ _)
        a (List.mem_cons_of_mem _ (hsub a ha)) hra
    · intro a ha b hb h1 h2
      exact htrans b (List.mem_cons_of_mem _ (hsub b hb))
        r (List.mem_cons_self _ _)
        a (List.mem_cons_of_mem _ (hsub a ha)) h2 h1

/-- Collecting error-free pages keeps, in order, exactly the entries that
`newRelease` keeps. -/
theorem fetchAllPages_ok (ps : List (List (Option GHRelease))) :
    fetchAllPages (ps.map .ok)
      = .ok (ps.flatten.filterMap newRelease) := by
  induction ps with
  | nil => rfl
  | cons p ps ih => simp [fetchAllPages, ih, List.filterMap_append]

/-- Amended claim C7: over error-free pages, `releases` (1) drops exactly
the `nil`, draft and prerelease entries — an entry with an unparseable tag
is kept, see `githubReleases_keeps_unparseable` — and returns a permutation
of the kept entries; (2) the result is sorted ascending by semantic version
whenever every kept tag parses and the tag comparison behaves as a strict
weak order on the kept entries (in Go, an unparseable tag makes the sort
comparator panic instead). -/
theorem githubReleases_spec (pagesData : List (List (Option GHRelease)))
    (kept : List Release)
    (hkept : pagesData.flatten.filterMap newRelease = kept)
    (hparse : ∀ r ∈ kept, (semverParse r.tag).isSome = true)
    (hasym : ∀ a ∈ kept, ∀ b ∈ kept, byTagLt a b = true →
      byTagLt b a = false)
    (htrans : ∀ a ∈ kept, ∀ b ∈ kept, ∀ c ∈ kept, byTagLt a b = true →
      byTagLt b c = true → byTagLt a c = true) :
    githubReleases (pagesData.map .ok) = .ok (sortByTag kept) ∧
    (sortByTag kept).Perm kept ∧
    (sortByTag kept).Pairwise (fun a b => byTagLt b a = false) ∧
    (∀ g : GHRelease,
      maybeBool g.draft = true ∨ maybeBool g.prerelease = true →
        newRelease (some g) = none) ∧
    newRelease none = none := by
  refine ⟨?_, sortByTag_perm kept, pairwise_sortByTag kept hasym htrans,
    ?_, rfl⟩
  · simp [githubReleases, fetchAllPages_ok, hkept]
  · intro g hg
    rcases hg with h | h <;> simp [newRelease, h]

/-- Witness for `githubReleases_spec`: two pages holding a draft entry, a
`nil` entry and two parseable releases out of order. -/
theorem githubReleases_spec_witness :
    ([[some ⟨some true, some false, some "v3.0.0", some "u3"⟩,
        some ⟨some false, some false, some "v2.0.0", some "u2"⟩, none],
      [some ⟨none, none, some "v1.0.0", some "u1"⟩]] :
        List (List (Option GHRelease))).flatten.filterMap newRelease
      = [⟨"v2.0.0", "u2"⟩, ⟨"v1.0.0", "u1"⟩] ∧
    githubReleases (([[some ⟨some true, some false, some "v3.0.0",
        some "u3"⟩,
        some ⟨some false, some false, some "v2.0.0", some "u2"⟩, none],
      [some ⟨none, none, some "v1.0.0", some "u1"⟩]] :
        List (List (Option GHRelease))).map .ok)
      = .ok (sortByTag [⟨"v2.0.0", "u2"⟩, ⟨"v1.0.0", "u1"⟩]) ∧
    sortByTag [⟨"v2.0.0", "u2"⟩, ⟨"v1.0.0", "u1"⟩]
      = [⟨"v1.0.0", "u1"⟩, ⟨"v2.0.0", "u2"⟩] :=
  ⟨by decide,
    (githubReleases_spec _ [⟨"v2.0.0", "u2"⟩, ⟨"v1.0.0", "u1"⟩]
      (by decide) (by decide) (by decide) (by decide)).1,
    by decide⟩

end Docsrv
